import Mathlib

/-!
Shallow embedding of the YIWeHa Home Assistant integration
(`scraper.py`, `hebcal.py`, `sensor.py`, `__init__.py`).

Timestamps are modelled as natural numbers (e.g. minutes since an epoch);
Python `datetime` values in this code are only ever compared, so any
linearly ordered carrier is faithful.  Python `None` is modelled as
`Option.none`, exceptions as `Except`.
-/

/-- An event from `scraper.py` / `hebcal.py` (`class Event`): a `title`
string and a `datetime` timestamp.  The `date`/`time` projections of the
Python class are derived from `datetime` and never compared, so they are
omitted. -/
structure Event where
  title : String
  datetime : Nat
deriving DecidableEq, Repr

/-- Python `Event.__eq__`: `self.datetime == other.datetime` (the title is
ignored).  Identical in `scraper.py` and `hebcal.py`. -/
def eventEq (a b : Event) : Bool :=
  a.datetime == b.datetime

/-- Python `Event.__lt__`: `self.datetime < other.datetime` (the title is
ignored).  Identical in `scraper.py` and `hebcal.py`. -/
def eventLt (a b : Event) : Bool :=
  decide (a.datetime < b.datetime)

/-- The non-strict order induced by `Event.__lt__`, as used by Python's
stable sorts: `a` may stay before `b` exactly when `not (b < a)`. -/
def eventLe (a b : Event) : Prop :=
  eventLt b a = false

instance : DecidableRel eventLe :=
  fun a b => inferInstanceAs (Decidable (eventLt b a = false))

theorem eventLe_iff (a b : Event) : eventLe a b ↔ a.datetime ≤ b.datetime := by
  unfold eventLe eventLt
  rw [decide_eq_false_iff_not]
  exact Nat.not_lt

instance : IsTotal Event eventLe :=
  ⟨fun a b => by
    rw [eventLe_iff, eventLe_iff]
    exact Nat.le_total a.datetime b.datetime⟩

instance : IsTrans Event eventLe :=
  ⟨fun a b c hab hbc => by
    rw [eventLe_iff] at *
    exact Nat.le_trans hab hbc⟩

/-- One step of Python's `min` over events: keep the accumulator unless the
new element is strictly smaller (so the first minimum wins on ties). -/
def minStep (acc e : Event) : Event :=
  if e.datetime < acc.datetime then e else acc

/-- One step of Python's `max` over events: keep the accumulator unless the
new element is strictly larger (so the first maximum wins on ties). -/
def maxStep (acc e : Event) : Event :=
  if acc.datetime < e.datetime then e else acc

/-- Python `min(list_of_events)`, driven by `Event.__lt__`; `none` models
the `ValueError` on an empty list (never reached in the embedded code). -/
def pyMinEvent : List Event → Option Event
  | [] => none
  | x :: xs => some (xs.foldl minStep x)

/-- Python `max(list_of_events)`, driven by `Event.__lt__`. -/
def pyMaxEvent : List Event → Option Event
  | [] => none
  | x :: xs => some (xs.foldl maxStep x)

/-- Python `sorted(...)` / `list.sort()` on events: a stable ascending sort
driven by `Event.__lt__`, modelled as insertion sort over `eventLe`. -/
def pySortEvents (l : List Event) : List Event :=
  List.insertionSort eventLe l

theorem minStep_le_left (a e : Event) : (minStep a e).datetime ≤ a.datetime := by
  unfold minStep
  split
  · exact Nat.le_of_lt (by assumption)
  · exact Nat.le_refl _

theorem minStep_le_right (a e : Event) : (minStep a e).datetime ≤ e.datetime := by
  unfold minStep
  split
  · exact Nat.le_refl _
  · exact Nat.le_of_not_lt (by assumption)

theorem minStep_eq_or (a e : Event) : minStep a e = a ∨ minStep a e = e := by
  unfold minStep
  split
  · exact Or.inr rfl
  · exact Or.inl rfl

theorem foldl_minStep_mem : ∀ (xs : List Event) (x : Event), xs.foldl minStep x ∈ x :: xs := by
  intro xs
  induction xs with
  | nil => intro x; simp
  | cons y ys ih =>
    intro x
    rw [List.foldl_cons]
    have h := ih (minStep x y)
    rcases List.mem_cons.mp h with h1 | h2
    · rw [h1]
      rcases minStep_eq_or x y with h3 | h3 <;> rw [h3] <;> simp
    · simp [List.mem_cons.mpr (Or.inr h2)]

theorem foldl_minStep_le : ∀ (xs : List Event) (x : Event), ∀ e ∈ x :: xs,
    (xs.foldl minStep x).datetime ≤ e.datetime := by
  intro xs
  induction xs with
  | nil =>
    intro x e he
    simp at he
    subst he
    exact Nat.le_refl _
  | cons y ys ih =>
    intro x e he
    rw [List.foldl_cons]
    rcases List.mem_cons.mp he with h1 | he'
    · rw [h1]
      exact Nat.le_trans (ih (minStep x y) _ (List.mem_cons_self _ _)) (minStep_le_left x y)
    · rcases List.mem_cons.mp he' with h2 | he''
      · rw [h2]
        exact Nat.le_trans (ih (minStep x y) _ (List.mem_cons_self _ _)) (minStep_le_right x y)
      · exact ih (minStep x y) e (List.mem_cons.mpr (Or.inr he''))

theorem maxStep_ge_left (a e : Event) : a.datetime ≤ (maxStep a e).datetime := by
  unfold maxStep
  split
  · exact Nat.le_of_lt (by assumption)
  · exact Nat.le_refl _

theorem maxStep_ge_right (a e : Event) : e.datetime ≤ (maxStep a e).datetime := by
  unfold maxStep
  split
  · exact Nat.le_refl _
  · exact Nat.le_of_not_lt (by assumption)

theorem maxStep_eq_or (a e : Event) : maxStep a e = a ∨ maxStep a e = e := by
  unfold maxStep
  split
  · exact Or.inr rfl
  · exact Or.inl rfl

theorem foldl_maxStep_mem : ∀ (xs : List Event) (x : Event), xs.foldl maxStep x ∈ x :: xs := by
  intro xs
  induction xs with
  | nil => intro x; simp
  | cons y ys ih =>
    intro x
    rw [List.foldl_cons]
    have h := ih (maxStep x y)
    rcases List.mem_cons.mp h with h1 | h2
    · rw [h1]
      rcases maxStep_eq_or x y with h3 | h3 <;> rw [h3] <;> simp
    · simp [List.mem_cons.mpr (Or.inr h2)]

theorem foldl_maxStep_ge : ∀ (xs : List Event) (x : Event), ∀ e ∈ x :: xs,
    e.datetime ≤ (xs.foldl maxStep x).datetime := by
  intro xs
  induction xs with
  | nil =>
    intro x e he
    simp at he
    subst he
    exact Nat.le_refl _
  | cons y ys ih =>
    intro x e he
    rw [List.foldl_cons]
    rcases List.mem_cons.mp he with h1 | he'
    · rw [h1]
      exact Nat.le_trans (maxStep_ge_left x y) (ih (maxStep x y) _ (List.mem_cons_self _ _))
    · rcases List.mem_cons.mp he' with h2 | he''
      · rw [h2]
        exact Nat.le_trans (maxStep_ge_right x y) (ih (maxStep x y) _ (List.mem_cons_self _ _))
      · exact ih (maxStep x y) e (List.mem_cons.mpr (Or.inr he''))

theorem filter_orderedInsert_key (d : Nat) (x : Event) :
    ∀ l : List Event,
      (List.orderedInsert eventLe x l).filter (fun e => e.datetime == d) =
        if x.datetime = d then x :: l.filter (fun e => e.datetime == d)
        else l.filter (fun e => e.datetime == d) := by
  intro l
  induction l with
  | nil =>
    by_cases hx : x.datetime = d
    · simp [List.orderedInsert, List.filter_cons, hx]
    · simp [List.orderedInsert, List.filter_cons, hx]
  | cons b l ih =>
    rw [List.orderedInsert]
    by_cases hr : eventLe x b
    · rw [if_pos hr]
      by_cases hx : x.datetime = d
      · simp [List.filter_cons, hx]
      · simp [List.filter_cons, hx]
    · rw [if_neg hr]
      have hb : b.datetime < x.datetime := by
        have := (not_iff_not.mpr (eventLe_iff x b)).mp hr
        exact Nat.lt_of_not_le this
      by_cases hx : x.datetime = d
      · have hbd : ¬ (b.datetime = d) := by
          intro hcon
          rw [hcon, hx] at hb
          exact Nat.lt_irrefl d hb
        simp [List.filter_cons, hbd, ih, hx]
      · simp [List.filter_cons, ih, hx]

theorem pySortEvents_filter_key (d : Nat) :
    ∀ l : List Event,
      (pySortEvents l).filter (fun e => e.datetime == d) =
        l.filter (fun e => e.datetime == d) := by
  intro l
  induction l with
  | nil => rfl
  | cons x xs ih =>
    unfold pySortEvents at *
    rw [List.insertionSort, filter_orderedInsert_key d x]
    by_cases hx : x.datetime = d
    · simp [List.filter_cons, hx, ih]
    · simp [List.filter_cons, hx, ih]

/-- A parsed calendar day cell (`class CalendarDay` in `scraper.py`),
reduced to the fields the embedded code reads: the cell's date and its
candle-lighting / havdalah events (set by `parse_events` when an event
title matches).  The HTML extraction itself is external I/O. -/
structure DayCell where
  date : Nat
  candle_lighting : Option Event
  havdalah : Option Event
deriving DecidableEq, Repr

/-- The dictionary returned by `YIWHScraper.parse_calendar_html` and stored
as the coordinator's data: sorted candle-lighting events, sorted havdalah
events, and today's `CalendarDay`. -/
structure CalData where
  candle_lighting : List Event
  havdalah : List Event
  today : DayCell
deriving DecidableEq, Repr

/-- The two event kinds handled by the duplicated sensor classes. -/
inductive Kind
  | candle
  | havdalah
deriving DecidableEq, Repr

/-- Which list of the coordinator data a sensor of the given kind reads
(`self.coordinator.data["candle_lighting"]` / `...["havdalah"]`). -/
def timesOf : Kind → CalData → List Event
  | Kind.candle, d => d.candle_lighting
  | Kind.havdalah, d => d.havdalah

/-- Common body of `NextCandleLightingSensor.native_value` and
`NextHavdalahSensor.native_value` after the `coordinator.data` check:
return `None` if the kind's list is empty, filter to events strictly after
`now`, return `None` if no future event, else `min(future_times).datetime`. -/
def nextEventNativeValue (times : List Event) (now : Nat) : Option Nat :=
  if times.isEmpty then none
  else
    let future := times.filter (fun e => decide (now < e.datetime))
    if future.isEmpty then none
    else (pyMinEvent future).map (fun e => e.datetime)

/-- `NextCandleLightingSensor.native_value` (`sensor.py`): `None` when the
coordinator has no data, otherwise the next-candle-lighting query. -/
def nextCandleLightingNativeValue (data : Option CalData) (now : Nat) : Option Nat :=
  match data with
  | none => none
  | some d => nextEventNativeValue d.candle_lighting now

/-- `NextHavdalahSensor.native_value` (`sensor.py`). -/
def nextHavdalahNativeValue (data : Option CalData) (now : Nat) : Option Nat :=
  match data with
  | none => none
  | some d => nextEventNativeValue d.havdalah now

/-- Mutable state of `LastCandleLightingSensor` / `LastHavdalahSensor`:
`self.past_event` and `self.next_event`, both initialised to `None`. -/
structure LastSensorState where
  past_event : Option Nat
  next_event : Option Nat
deriving DecidableEq, Repr

/-- Body of `update_events` after the data / empty-list checks, for either
last-event sensor.  Returns the new sensor state, whether the final
recompute branch ran (which is where the code writes the entity state and
calls `schedule_next_update`), and the time it scheduled, if any.
Faithful to the source order: `past_event`/`next_event` are first reset to
`None` when the corresponding filtered list is empty, then the early
`return` fires when either *stored* field is `None`, and only otherwise are
both fields recomputed as `max(past_times)` / `min(future_times)`. -/
def updateEventsCore (times : List Event) (st : LastSensorState) (now : Nat) :
    LastSensorState × Bool × Option Nat :=
  let past := times.filter (fun e => decide (e.datetime ≤ now))
  let future := times.filter (fun e => decide (now < e.datetime))
  let pastE : Option Nat := if past.isEmpty then none else st.past_event
  let nextE : Option Nat := if future.isEmpty then none else st.next_event
  if pastE.isNone || nextE.isNone then (⟨pastE, nextE⟩, false, none)
  else
    let newPast := (pyMaxEvent past).map (fun e => e.datetime)
    let newNext := (pyMinEvent future).map (fun e => e.datetime)
    (⟨newPast, newNext⟩, true, newNext)

/-- `LastCandleLightingSensor.update_events` / `LastHavdalahSensor.update_events`
(`sensor.py`), parametrised by the kind whose coordinator list it reads.
When the coordinator data is `None` or the kind's list is empty both fields
are reset to `None` and nothing is scheduled. -/
def update_events (k : Kind) (data : Option CalData) (st : LastSensorState) (now : Nat) :
    LastSensorState × Bool × Option Nat :=
  match data with
  | none => (⟨none, none⟩, false, none)
  | some d =>
    let times := timesOf k d
    if times.isEmpty then (⟨none, none⟩, false, none)
    else updateEventsCore times st now

/-- `native_value` of a last-event sensor (`sensor.py`): refresh via
`update_events` when either stored field is `None` or `now` has reached the
stored `next_event`, then publish `past_event` unless either field is still
`None`.  Returns the state after the call and the published value. -/
def lastSensorNativeValue (k : Kind) (data : Option CalData) (st : LastSensorState)
    (now : Nat) : LastSensorState × Option Nat :=
  let needsUpdate := st.past_event.isNone || st.next_event.isNone ||
    (match st.next_event with
     | some t => decide (t ≤ now)
     | none => true)
  let st2 := if needsUpdate then (update_events k data st now).1 else st
  (st2, if st2.past_event.isNone || st2.next_event.isNone then none else st2.past_event)

/-- `IssurMelachaSensor.is_on` (`sensor.py`): reads `past_event` of the two
last-event sensors; returns `None` when either is missing, else whether the
last candle lighting is strictly later than the last havdalah. -/
def issurMelachaIsOn (last_candle last_havdalah : Option Nat) : Option Bool :=
  match last_candle, last_havdalah with
  | some c, some h => some (decide (h < c))
  | some _, none => none
  | none, some _ => none
  | none, none => none

/-- The last-at-or-before query as the source computes it inside
`update_events`: `max(past_times).datetime` over the events with
`datetime <= now`, or `None` when no event qualifies. -/
def lastAtOrBefore (times : List Event) (now : Nat) : Option Nat :=
  (pyMaxEvent (times.filter (fun e => decide (e.datetime ≤ now)))).map
    (fun e => e.datetime)

/-- The pool of pending (armed, not yet fired or cancelled) one-shot
timers created through `homeassistant.helpers.event.async_track_point_in_time`,
recorded by their fire times.  Arming appends a timer and returns a handle
(the index of the new entry); the handle would cancel the timer if it were
ever invoked — the embedded code never invokes one. -/
structure TimerRegistry where
  fires : List Nat
deriving DecidableEq, Repr

/-- `async_track_point_in_time(hass, callback, when)`: registers a new
pending timer and returns its cancel handle. -/
def trackPointInTime (reg : TimerRegistry) (when : Nat) : TimerRegistry × Nat :=
  (⟨reg.fires ++ [when]⟩, reg.fires.length)

/-- Scheduling-related state of a last-event sensor: the shared pending
timer pool and the sensor's `self._unsub_time_listener` attribute. -/
structure SchedState where
  registry : TimerRegistry
  unsub_time_listener : Option Nat
deriving DecidableEq, Repr

/-- `schedule_next_update` of either last-event sensor (`sensor.py`): arms
a timer for `self.next_event` via `async_track_point_in_time` and stores
the returned handle in `self._unsub_time_listener`, overwriting whatever
handle was stored before without calling it. -/
def schedule_next_update (s : SchedState) (next_event : Nat) : SchedState :=
  let armed := trackPointInTime s.registry next_event
  ⟨armed.1, some armed.2⟩

/-- The exceptions the scraping path can raise (`scraper.py`):
`network` — `requests.RequestException` re-raised as `ConnectionError`;
`badStatus` — non-200 response, raised as `ConnectionError`;
`noCells` — `ValueError` when no calendar day cells are found;
`todayMissing` — `KeyError` from `get_today` when no cell has today's date. -/
inductive FetchErr
  | network
  | badStatus
  | noCells
  | todayMissing
deriving DecidableEq, Repr

/-- Lookup in the `self.days` dict built by repeated `self.days[day.date] = day`
assignments: the last cell with the given date wins. -/
def daysGet (cells : List DayCell) (d : Nat) : Option DayCell :=
  (cells.filter (fun c => decide (c.date = d))).getLast?

/-- The keys of the `self.days` dict in Python insertion order: first
occurrence of each date. -/
def daysKeys (cells : List DayCell) : List Nat :=
  cells.foldl (fun acc c => if c.date ∈ acc then acc else acc ++ [c.date]) []

/-- `self.days.values()`: one `CalendarDay` per distinct date, in first
insertion order, each being the last cell stored under that date. -/
def daysValues (cells : List DayCell) : List DayCell :=
  (daysKeys cells).filterMap (daysGet cells)

/-- `YIWHScraper.get_candle_lightings`: the non-`None` candle-lighting
events of all days, sorted. -/
def get_candle_lightings (cells : List DayCell) : List Event :=
  pySortEvents ((daysValues cells).filterMap (fun c => c.candle_lighting))

/-- `YIWHScraper.get_havdalahs`: the non-`None` havdalah events of all
days, sorted. -/
def get_havdalahs (cells : List DayCell) : List Event :=
  pySortEvents ((daysValues cells).filterMap (fun c => c.havdalah))

/-- `YIWHScraper.get_today`: `self.days[datetime.now().date()]`; `none`
models the `KeyError` when no stored day has today's date. -/
def get_today (cells : List DayCell) (today : Nat) : Option DayCell :=
  daysGet cells today

/-- `YIWHScraper.parse_calendar_html` (`scraper.py`), over the already
day-cell-split document: raises `ValueError` when there are no day cells,
rebuilds `self.days`, and returns the candle-lighting / havdalah / today
dictionary — where `get_today` raises `KeyError` if no cell is dated
today, discarding the lists that were just built. -/
def parse_calendar_html (cells : List DayCell) (today : Nat) : Except FetchErr CalData :=
  if cells.isEmpty then Except.error FetchErr.noCells
  else
    match get_today cells today with
    | none => Except.error FetchErr.todayMissing
    | some td => Except.ok ⟨get_candle_lightings cells, get_havdalahs cells, td⟩

/-- `YIWHScraper.scrape_calendar` (`scraper.py`): the HTTP round trip is
modelled by its outcome — `none` for a `requests` exception, otherwise the
status code and the day cells of the fetched document.  A non-200 status
raises `ConnectionError`; otherwise the document is parsed. -/
def scrape_calendar (resp : Option (Nat × List DayCell)) (today : Nat) :
    Except FetchErr CalData :=
  match resp with
  | none => Except.error FetchErr.network
  | some (status, cells) =>
    if status ≠ 200 then Except.error FetchErr.badStatus
    else parse_calendar_html cells today

/-- `MidnightCoordinator._async_update_data` (`__init__.py`): the body is
`return self.scraper.scrape_calendar()` — it returns the scrape result (or
lets the exception propagate) and never assigns the coordinator's stored
`data`, so the stored snapshot is returned unchanged alongside the
outcome. -/
def asyncUpdateData (stored : Option CalData) (resp : Option (Nat × List DayCell))
    (today : Nat) : Option CalData × Except FetchErr CalData :=
  (stored, scrape_calendar resp today)

/-- `MidnightCoordinator._handle_midnight` (`__init__.py`): awaits
`_async_update_data` and then calls `_schedule_next_midnight`.  The middle
component records whether `_schedule_next_midnight` ran: when the update
raises, the exception propagates out of the handler first and no next
midnight update is armed. -/
def handleMidnight (stored : Option CalData) (resp : Option (Nat × List DayCell))
    (today : Nat) : Option CalData × Bool × Except FetchErr CalData :=
  match asyncUpdateData stored resp today with
  | (st2, Except.error e) => (st2, false, Except.error e)
  | (st2, Except.ok d) => (st2, true, Except.ok d)

/-- Concrete coordinator data: two candle-lighting events (at 5 and 15)
and no havdalah events. -/
def sampleCandleData : CalData :=
  ⟨[⟨"Candle Lighting", 5⟩, ⟨"Candle Lighting", 15⟩], [], ⟨0, none, none⟩⟩

/-- Concrete coordinator data with one past candle-lighting event only. -/
def samplePastOnlyData : CalData :=
  ⟨[⟨"Candle Lighting", 5⟩], [], ⟨0, none, none⟩⟩

/-- Concrete coordinator data in the spec's Scenario D shape: one opening
at 480 (08:00) and one closing at 540 (09:00). -/
def scenarioDData : CalData :=
  ⟨[⟨"Candle Lighting", 480⟩], [⟨"Shabbat Ends", 540⟩], ⟨0, none, none⟩⟩

/-- Concrete coordinator data where the next candle lighting (20) is later
than the next havdalah (10) as of time 7. -/
def skewedNextData : CalData :=
  ⟨[⟨"Candle Lighting", 5⟩, ⟨"Candle Lighting", 20⟩],
   [⟨"Shabbat Ends", 3⟩, ⟨"Shabbat Ends", 10⟩], ⟨0, none, none⟩⟩

/-- A concrete day cell dated 7 carrying a candle-lighting event. -/
def sampleTodayCell : DayCell :=
  ⟨7, some ⟨"Candle Lighting", 480⟩, none⟩

theorem pyMinEvent_spec (l : List Event) (hl : l ≠ []) :
    ∃ m, pyMinEvent l = some m ∧ m ∈ l ∧ ∀ e ∈ l, m.datetime ≤ e.datetime := by
  cases l with
  | nil => exact absurd rfl hl
  | cons x xs =>
    exact ⟨xs.foldl minStep x, rfl, foldl_minStep_mem xs x, foldl_minStep_le xs x⟩

theorem pyMaxEvent_spec (l : List Event) (hl : l ≠ []) :
    ∃ m, pyMaxEvent l = some m ∧ m ∈ l ∧ ∀ e ∈ l, e.datetime ≤ m.datetime := by
  cases l with
  | nil => exact absurd rfl hl
  | cons x xs =>
    exact ⟨xs.foldl maxStep x, rfl, foldl_maxStep_mem xs x, foldl_maxStep_ge xs x⟩

theorem nextEventNativeValue_none_iff (times : List Event) (now : Nat) :
    nextEventNativeValue times now = none ↔
      ∀ u ∈ times.map (fun e => e.datetime), u ≤ now := by
  cases times with
  | nil => simp [nextEventNativeValue]
  | cons a as =>
    simp only [nextEventNativeValue, List.isEmpty_cons, Bool.false_eq_true, if_false]
    cases hf : (a :: as).filter (fun e => decide (now < e.datetime)) with
    | nil =>
      simp only [hf, List.isEmpty_nil, if_true]
      constructor
      · intro _ u hu
        obtain ⟨e, he, hdt⟩ := List.mem_map.mp hu
        by_contra hle
        have hnow : now < u := Nat.lt_of_not_le hle
        have hmemf : e ∈ (a :: as).filter (fun e => decide (now < e.datetime)) :=
          List.mem_filter.mpr ⟨he, by rw [hdt]; exact decide_eq_true hnow⟩
        rw [hf] at hmemf
        exact absurd hmemf (List.not_mem_nil e)
      · intro _
        trivial
    | cons b bs =>
      simp only [hf, List.isEmpty_cons, Bool.false_eq_true, if_false, pyMinEvent,
        Option.map_some']
      constructor
      · intro hcon
        exact absurd hcon (Option.some_ne_none _)
      · intro hall
        have hb : b ∈ (a :: as).filter (fun e => decide (now < e.datetime)) := by
          rw [hf]
          exact List.mem_cons_self _ _
        obtain ⟨hbmem, hbdec⟩ := List.mem_filter.mp hb
        have h1 : now < b.datetime := of_decide_eq_true hbdec
        have h2 : b.datetime ≤ now := hall b.datetime (List.mem_map.mpr ⟨b, hbmem, rfl⟩)
        exact absurd (Nat.lt_of_lt_of_le h1 h2) (Nat.lt_irrefl now)

theorem nextEventNativeValue_some_iff (times : List Event) (now t : Nat) :
    nextEventNativeValue times now = some t ↔
      (t ∈ times.map (fun e => e.datetime) ∧ now < t ∧
        ∀ u ∈ times.map (fun e => e.datetime), now < u → t ≤ u) := by
  cases times with
  | nil => simp [nextEventNativeValue]
  | cons a as =>
    simp only [nextEventNativeValue, List.isEmpty_cons, Bool.false_eq_true, if_false]
    cases hf : (a :: as).filter (fun e => decide (now < e.datetime)) with
    | nil =>
      simp only [hf, List.isEmpty_nil, if_true]
      constructor
      · intro hcon
        exact absurd hcon.symm (Option.some_ne_none _)
      · rintro ⟨hmem, hlt, _⟩
        obtain ⟨e, he, hdt⟩ := List.mem_map.mp hmem
        have hmemf : e ∈ (a :: as).filter (fun e => decide (now < e.datetime)) :=
          List.mem_filter.mpr ⟨he, by rw [hdt]; exact decide_eq_true hlt⟩
        rw [hf] at hmemf
        exact absurd hmemf (List.not_mem_nil e)
    | cons b bs =>
      simp only [hf, List.isEmpty_cons, Bool.false_eq_true, if_false, pyMinEvent,
        Option.map_some']
      have hmmem : bs.foldl minStep b ∈ b :: bs := foldl_minStep_mem bs b
      have hmle : ∀ e ∈ b :: bs, (bs.foldl minStep b).datetime ≤ e.datetime :=
        foldl_minStep_le bs b
      have hmfut : bs.foldl minStep b ∈ (a :: as).filter (fun e => decide (now < e.datetime)) := by
        rw [hf]
        exact hmmem
      obtain ⟨hmemTimes, hmdec⟩ := List.mem_filter.mp hmfut
      have hmnow : now < (bs.foldl minStep b).datetime := of_decide_eq_true hmdec
      constructor
      · intro hsome
        have ht : (bs.foldl minStep b).datetime = t := Option.some_inj.mp hsome
        subst ht
        refine ⟨List.mem_map.mpr ⟨bs.foldl minStep b, hmemTimes, rfl⟩, hmnow, ?_⟩
        intro u hu hnu
        obtain ⟨e, he, hdt⟩ := List.mem_map.mp hu
        have hef : e ∈ (a :: as).filter (fun e => decide (now < e.datetime)) :=
          List.mem_filter.mpr ⟨he, by rw [hdt]; exact decide_eq_true hnu⟩
        rw [hf] at hef
        rw [← hdt]
        exact hmle e hef
      · rintro ⟨hmem, hlt, hmin⟩
        obtain ⟨e, he, hdt⟩ := List.mem_map.mp hmem
        have hef : e ∈ (a :: as).filter (fun e => decide (now < e.datetime)) :=
          List.mem_filter.mpr ⟨he, by rw [hdt]; exact decide_eq_true hlt⟩
        rw [hf] at hef
        have h1 : (bs.foldl minStep b).datetime ≤ t := hdt ▸ hmle e hef
        have h2 : t ≤ (bs.foldl minStep b).datetime :=
          hmin (bs.foldl minStep b).datetime
            (List.mem_map.mpr ⟨bs.foldl minStep b, hmemTimes, rfl⟩) hmnow
        rw [Nat.le_antisymm h1 h2]

/-- C1 counterexample: the claim asserts `is_on` is false (not absent) when
no events exist, and true when a last opening exists with no last closing;
`IssurMelachaSensor.is_on` instead returns `None` in both situations. -/
theorem issurMelacha_absent_counterexample :
    issurMelachaIsOn none none = none ∧ issurMelachaIsOn none none ≠ some false ∧
      issurMelachaIsOn (some 5) none = none ∧ issurMelachaIsOn (some 5) none ≠ some true := by
  refine ⟨rfl, ?_, rfl, ?_⟩ <;> intro h <;> exact Option.noConfusion h

/-- C1 amended: `is_on` returns true iff both last-event sensors hold a
past event and the last opening is strictly later than the last closing;
it returns absent (`None`), not false, exactly when either past event is
missing — in particular when no events exist at all. -/
theorem issurMelacha_is_on_characterisation (lc lh : Option Nat) :
    (issurMelachaIsOn lc lh = some true ↔
      ∃ c h : Nat, lc = some c ∧ lh = some h ∧ h < c) ∧
    (issurMelachaIsOn lc lh = none ↔ (lc = none ∨ lh = none)) := by
  cases lc with
  | none => cases lh <;> simp [issurMelachaIsOn]
  | some c =>
    cases lh with
    | none => simp [issurMelachaIsOn]
    | some h =>
      constructor
      · simp only [issurMelachaIsOn, Option.some_inj, decide_eq_true_eq]
        constructor
        · intro hlt
          exact ⟨c, h, rfl, rfl, hlt⟩
        · rintro ⟨c2, h2, hc2, hh2, hlt⟩
          rw [hc2, hh2]
          exact hlt
      · simp [issurMelachaIsOn]

/-- C1 witness: the characterisation evaluated at concrete last events. -/
theorem issurMelacha_is_on_characterisation_witness :
    issurMelachaIsOn (some 7) (some 3) = some true ∧ issurMelachaIsOn none (some 3) = none := by
  constructor
  · exact (issurMelacha_is_on_characterisation (some 7) (some 3)).1.mpr
      ⟨7, 3, rfl, rfl, by decide⟩
  · exact (issurMelacha_is_on_characterisation none (some 3)).2.mpr (Or.inl rfl)

/-- C2: for every snapshot and query time, the next-event sensors return
the smallest event timestamp strictly greater than `now` of their kind,
and `None` exactly when every timestamp of that kind is at most `now`
(in particular when the kind's list is empty). -/
theorem next_sensor_returns_smallest_future (d : CalData) (now : Nat) :
    (∀ t : Nat, nextCandleLightingNativeValue (some d) now = some t ↔
      (t ∈ d.candle_lighting.map (fun e => e.datetime) ∧ now < t ∧
        ∀ u ∈ d.candle_lighting.map (fun e => e.datetime), now < u → t ≤ u)) ∧
    (nextCandleLightingNativeValue (some d) now = none ↔
      ∀ u ∈ d.candle_lighting.map (fun e => e.datetime), u ≤ now) ∧
    (∀ t : Nat, nextHavdalahNativeValue (some d) now = some t ↔
      (t ∈ d.havdalah.map (fun e => e.datetime) ∧ now < t ∧
        ∀ u ∈ d.havdalah.map (fun e => e.datetime), now < u → t ≤ u)) ∧
    (nextHavdalahNativeValue (some d) now = none ↔
      ∀ u ∈ d.havdalah.map (fun e => e.datetime), u ≤ now) := by
  refine ⟨fun t => ?_, ?_, fun t => ?_, ?_⟩
  · exact nextEventNativeValue_some_iff d.candle_lighting now t
  · exact nextEventNativeValue_none_iff d.candle_lighting now
  · exact nextEventNativeValue_some_iff d.havdalah now t
  · exact nextEventNativeValue_none_iff d.havdalah now

/-- C2 witness: the characterisation applied to concrete data — the next
candle lighting after 10 among `{5, 15}` is 15, and there is no havdalah
after 10 in an empty list. -/
theorem next_sensor_returns_smallest_future_witness :
    nextCandleLightingNativeValue (some sampleCandleData) 10 = some 15 ∧
      nextHavdalahNativeValue (some sampleCandleData) 10 = none := by
  constructor
  · exact ((next_sensor_returns_smallest_future sampleCandleData 10).1 15).mpr
      (by decide)
  · exact (next_sensor_returns_smallest_future sampleCandleData 10).2.2.2.mpr
      (by decide)

/-- C3 (code bug): with a fresh sensor (`past_event = next_event = None`),
coordinator data holding candle lightings at 5 and 15, and `now = 10`, the
claimed result is 5 (the largest timestamp at or before `now`, which the
last conjunct shows 5 to be), but `native_value` publishes `None`:
`update_events` returns before the recompute because the *stored* fields
are still `None`, so the last-event value never gets set. -/
theorem last_sensor_native_value_stays_none :
    (lastSensorNativeValue Kind.candle (some sampleCandleData) ⟨none, none⟩ 10).2 = none ∧
      (lastSensorNativeValue Kind.candle (some sampleCandleData) ⟨none, none⟩ 10).1 =
        ⟨none, none⟩ ∧
      (5 ∈ sampleCandleData.candle_lighting.map (fun e => e.datetime) ∧ 5 ≤ 10 ∧
        ∀ u ∈ sampleCandleData.candle_lighting.map (fun e => e.datetime),
          u ≤ 10 → u ≤ 5) := by
  decide

theorem updateEventsCore_sched_next (times : List Event) (st : LastSensorState)
    (now t : Nat) (h : (updateEventsCore times st now).2.2 = some t) :
    nextEventNativeValue times now = some t := by
  cases hfut : (times.filter (fun e => decide (now < e.datetime))).isEmpty with
  | true => simp [updateEventsCore, hfut] at h
  | false =>
    cases hpast : (times.filter (fun e => decide (e.datetime ≤ now))).isEmpty with
    | true => simp [updateEventsCore, hpast] at h
    | false =>
      cases hpe : st.past_event with
      | none => simp [updateEventsCore, hfut, hpast, hpe] at h
      | some p =>
        cases hne : st.next_event with
        | none => simp [updateEventsCore, hfut, hpast, hpe, hne] at h
        | some n =>
          simp only [updateEventsCore, hfut, hpast, hpe, hne, Bool.false_eq_true,
            if_false, Option.isNone_some, Bool.or_self] at h
          have htimes : times.isEmpty = false := by
            cases times with
            | nil => simp at hfut
            | cons a as => rfl
          simp only [nextEventNativeValue, htimes, hfut, Bool.false_eq_true, if_false]
          exact h

theorem updateEventsCore_true_filters (times : List Event) (st : LastSensorState)
    (now : Nat) (h : (updateEventsCore times st now).2.1 = true) :
    times.filter (fun e => decide (e.datetime ≤ now)) ≠ [] ∧
      times.filter (fun e => decide (now < e.datetime)) ≠ [] := by
  cases hpast : (times.filter (fun e => decide (e.datetime ≤ now))).isEmpty with
  | true => simp [updateEventsCore, hpast] at h
  | false =>
    cases hfut : (times.filter (fun e => decide (now < e.datetime))).isEmpty with
    | true => simp [updateEventsCore, hpast, hfut] at h
    | false =>
      exact ⟨List.isEmpty_eq_false.mp hpast, List.isEmpty_eq_false.mp hfut⟩

theorem updateEventsCore_sched_isSome (times : List Event) (st : LastSensorState)
    (now : Nat) (h : (updateEventsCore times st now).2.2.isSome = true) :
    (updateEventsCore times st now).2.1 = true := by
  cases hpast : (times.filter (fun e => decide (e.datetime ≤ now))).isEmpty with
  | true => simp [updateEventsCore, hpast] at h
  | false =>
    cases hfut : (times.filter (fun e => decide (now < e.datetime))).isEmpty with
    | true => simp [updateEventsCore, hpast, hfut] at h
    | false =>
      cases hpe : st.past_event with
      | none => simp [updateEventsCore, hpast, hfut, hpe] at h
      | some p =>
        cases hne : st.next_event with
        | none => simp [updateEventsCore, hpast, hfut, hpe, hne] at h
        | some n => simp [updateEventsCore, hpast, hfut, hpe, hne]

theorem updateEventsCore_stale (times : List Event) (st : LastSensorState) (now : Nat)
    (hpast : times.filter (fun e => decide (e.datetime ≤ now)) ≠ [])
    (hfut : times.filter (fun e => decide (now < e.datetime)) = []) :
    (updateEventsCore times st now).1.past_event = st.past_event ∧
      (updateEventsCore times st now).2.1 = false := by
  have hp : (times.filter (fun e => decide (e.datetime ≤ now))).isEmpty = false :=
    List.isEmpty_eq_false.mpr hpast
  have hf : (times.filter (fun e => decide (now < e.datetime))).isEmpty = true := by
    rw [hfut]
    rfl
  simp [updateEventsCore, hp, hf]

/-- C4 counterexample: two consecutive arms leave two live timers, refuting
"at most one pending timer, arming cancels the previous one"; and in data
where the sensor's own next candle lighting (20) is later than the next
havdalah (10), the armed wake time is 20, not the minimum 10 of the two
kinds' next events. -/
theorem schedule_double_arm_counterexample :
    (schedule_next_update (schedule_next_update ⟨⟨[]⟩, none⟩ 10) 20).registry.fires =
        [10, 20] ∧
      ¬ ((schedule_next_update (schedule_next_update ⟨⟨[]⟩, none⟩ 10) 20).registry.fires.length
          ≤ 1) ∧
      (update_events Kind.candle (some skewedNextData) ⟨some 1, some 2⟩ 7).2.2 = some 20 ∧
      nextHavdalahNativeValue (some skewedNextData) 7 = some 10 := by
  decide

/-- C4 amended: arming appends a new pending timer without cancelling the
previous one — the stored unsubscribe handle is overwritten, never invoked,
so several pending timers can coexist — and the armed wake time equals the
smallest future event time of the scheduling sensor's own kind, not the
minimum across the two kinds. -/
theorem schedule_overwrites_without_cancel :
    (∀ (s : SchedState) (t : Nat),
      (schedule_next_update s t).registry.fires = s.registry.fires ++ [t] ∧
        (schedule_next_update s t).unsub_time_listener = some s.registry.fires.length) ∧
    (∀ (k : Kind) (d : CalData) (st : LastSensorState) (now t : Nat),
      (update_events k (some d) st now).2.2 = some t →
        t ∈ (timesOf k d).map (fun e => e.datetime) ∧ now < t ∧
          ∀ u ∈ (timesOf k d).map (fun e => e.datetime), now < u → t ≤ u) := by
  constructor
  · intro s t
    exact ⟨rfl, rfl⟩
  · intro k d st now t h
    cases htimes : (timesOf k d).isEmpty with
    | true => simp [update_events, htimes] at h
    | false =>
      have hred : update_events k (some d) st now = updateEventsCore (timesOf k d) st now := by
        simp [update_events, htimes]
      rw [hred] at h
      exact (nextEventNativeValue_some_iff (timesOf k d) now t).mp
        (updateEventsCore_sched_next (timesOf k d) st now t h)

/-- C4 amended witness: one arm yields exactly one appended timer, and the
concrete armed time 20 is the smallest future candle lighting at time 7. -/
theorem schedule_overwrites_without_cancel_witness :
    (schedule_next_update ⟨⟨[]⟩, none⟩ 10).registry.fires = [10] ∧
      (20 ∈ (timesOf Kind.candle skewedNextData).map (fun e => e.datetime) ∧ 7 < 20 ∧
        ∀ u ∈ (timesOf Kind.candle skewedNextData).map (fun e => e.datetime),
          7 < u → 20 ≤ u) := by
  constructor
  · exact (schedule_overwrites_without_cancel.1 ⟨⟨[]⟩, none⟩ 10).1
  · exact schedule_overwrites_without_cancel.2 Kind.candle skewedNextData
      ⟨some 1, some 2⟩ 7 20 (by decide)

/-- C5: when the scrape raises (connectivity, bad status, missing
structure, or missing today entry), the coordinator's stored snapshot is
unchanged, the error is surfaced to the caller rather than adopted as
data, and every sensor query against the stored snapshot is unchanged. -/
theorem reload_failure_retains_data (stored : Option CalData)
    (resp : Option (Nat × List DayCell)) (today now : Nat) (e : FetchErr)
    (herr : scrape_calendar resp today = Except.error e) :
    (asyncUpdateData stored resp today).1 = stored ∧
      (asyncUpdateData stored resp today).2 = Except.error e ∧
      nextCandleLightingNativeValue (asyncUpdateData stored resp today).1 now =
        nextCandleLightingNativeValue stored now ∧
      nextHavdalahNativeValue (asyncUpdateData stored resp today).1 now =
        nextHavdalahNativeValue stored now ∧
      ∀ (k : Kind) (st : LastSensorState),
        lastSensorNativeValue k (asyncUpdateData stored resp today).1 st now =
          lastSensorNativeValue k stored st now := by
  exact ⟨rfl, herr, rfl, rfl, fun k st => rfl⟩

/-- C5 witness: a connectivity failure over the spec's Scenario D snapshot
leaves the snapshot installed and surfaces the network error. -/
theorem reload_failure_retains_data_witness :
    (asyncUpdateData (some scenarioDData) none 0).1 = some scenarioDData ∧
      (asyncUpdateData (some scenarioDData) none 0).2 =
        Except.error FetchErr.network := by
  have h := reload_failure_retains_data (some scenarioDData) none 0 500
    FetchErr.network rfl
  exact ⟨h.1, h.2.1⟩

/-- C6: when the most recent opening and closing at or before `now` share
the identical timestamp `X`, the inside boolean is `false` (closing wins
the tie) and the evaluation is a total function — no crash. -/
theorem tie_closing_wins (O C : List Event) (now X : Nat)
    (hO : lastAtOrBefore O now = some X) (hC : lastAtOrBefore C now = some X) :
    issurMelachaIsOn (lastAtOrBefore O now) (lastAtOrBefore C now) = some false := by
  rw [hO, hC]
  simp [issurMelachaIsOn]

/-- C6 witness: one opening and one closing event both at time 5, queried
at time 7. -/
theorem tie_closing_wins_witness :
    issurMelachaIsOn (lastAtOrBefore [⟨"Candle Lighting", 5⟩] 7)
      (lastAtOrBefore [⟨"Shabbat Ends", 5⟩] 7) = some false :=
  tie_closing_wins [⟨"Candle Lighting", 5⟩] [⟨"Shabbat Ends", 5⟩] 7 5
    (by decide) (by decide)

/-- C7 (code bug): when the midnight fetch raises, `_handle_midnight`
propagates the exception before `_schedule_next_midnight` runs, so no
subsequent midnight update is armed — the daily retry cycle stops — while
on a successful fetch the next midnight is armed. -/
theorem midnight_failure_stops_rearm :
    (handleMidnight (some scenarioDData) none 0).2.1 = false ∧
      (handleMidnight (some scenarioDData) none 0).2.2 =
        Except.error FetchErr.network ∧
      (handleMidnight (some scenarioDData) (some (200, [sampleTodayCell])) 7).2.1 =
        true := by
  exact ⟨rfl, rfl, rfl⟩

/-- C8: `update_events` reaches its recompute-and-schedule branch only
when the kind has at least one past and at least one future event (first
two conjuncts), and when the kind has past events but no future ones the
stored `past_event` is left at its previous — possibly stale or absent —
value instead of being set to the most recent past event (last conjunct). -/
theorem update_events_guard (k : Kind) (d : CalData) (st : LastSensorState) (now : Nat) :
    ((update_events k (some d) st now).2.1 = true →
      (timesOf k d).filter (fun e => decide (e.datetime ≤ now)) ≠ [] ∧
        (timesOf k d).filter (fun e => decide (now < e.datetime)) ≠ []) ∧
    ((update_events k (some d) st now).2.2.isSome = true →
      (timesOf k d).filter (fun e => decide (e.datetime ≤ now)) ≠ [] ∧
        (timesOf k d).filter (fun e => decide (now < e.datetime)) ≠ []) ∧
    ((timesOf k d).filter (fun e => decide (e.datetime ≤ now)) ≠ [] →
      (timesOf k d).filter (fun e => decide (now < e.datetime)) = [] →
      (update_events k (some d) st now).1.past_event = st.past_event) := by
  refine ⟨?_, ?_, ?_⟩
  · intro h
    cases htimes : (timesOf k d).isEmpty with
    | true => simp [update_events, htimes] at h
    | false =>
      have hred : update_events k (some d) st now = updateEventsCore (timesOf k d) st now := by
        simp [update_events, htimes]
      rw [hred] at h
      exact updateEventsCore_true_filters (timesOf k d) st now h
  · intro h
    cases htimes : (timesOf k d).isEmpty with
    | true => simp [update_events, htimes] at h
    | false =>
      have hred : update_events k (some d) st now = updateEventsCore (timesOf k d) st now := by
        simp [update_events, htimes]
      rw [hred] at h
      exact updateEventsCore_true_filters (timesOf k d) st now
        (updateEventsCore_sched_isSome (timesOf k d) st now h)
  · intro hpast hfut
    cases htimes : (timesOf k d).isEmpty with
    | true =>
      exfalso
      apply hpast
      have hnil : timesOf k d = [] := List.isEmpty_iff.mp htimes
      rw [hnil]
      rfl
    | false =>
      have hred : update_events k (some d) st now = updateEventsCore (timesOf k d) st now := by
        simp [update_events, htimes]
      rw [hred]
      exact (updateEventsCore_stale (timesOf k d) st now hpast hfut).1

/-- C8 witness: with only a past candle lighting (at 5, `now = 10`) and a
stale stored value 99, `update_events` leaves `past_event = 99` instead of
setting it to 5. -/
theorem update_events_guard_witness :
    (update_events Kind.candle (some samplePastOnlyData) ⟨some 99, some 99⟩ 10).1.past_event =
      some 99 :=
  (update_events_guard Kind.candle samplePastOnlyData ⟨some 99, some 99⟩ 10).2.2
    (by decide) (by decide)

/-- C9: whenever the scraped calendar has day cells but none dated today,
`parse_calendar_html` fails with the `KeyError` from `get_today`, so the
whole reload returns no data even though the cells (and any events on
them) were parsed. -/
theorem parse_fails_when_today_missing (cells : List DayCell) (today : Nat)
    (hne : cells ≠ []) (hmiss : ∀ c ∈ cells, c.date ≠ today) :
    parse_calendar_html cells today = Except.error FetchErr.todayMissing := by
  have hfil : cells.filter (fun c => decide (c.date = today)) = [] := by
    rw [List.filter_eq_nil_iff]
    intro c hc
    simp only [decide_eq_true_eq]
    exact hmiss c hc
  have hEmp : cells.isEmpty = false := List.isEmpty_eq_false.mpr hne
  simp [parse_calendar_html, get_today, daysGet, hEmp, hfil]

/-- C9 witness: a single cell dated 3 with a successfully parsed
candle-lighting event still makes the reload of day 5 fail. -/
theorem parse_fails_when_today_missing_witness :
    parse_calendar_html [⟨3, some ⟨"Candle Lighting", 480⟩, none⟩] 5 =
      Except.error FetchErr.todayMissing :=
  parse_fails_when_today_missing [⟨3, some ⟨"Candle Lighting", 480⟩, none⟩] 5
    (by decide) (by decide)

/-- C10: `Event` equality and ordering depend only on `datetime` — equal
iff equal timestamps, less-than iff earlier timestamp, so an opening and a
closing event with one timestamp compare equal — and Python's stable sort
yields a permutation ordered by timestamp in which events sharing a
timestamp keep their original relative order. -/
theorem event_order_ignores_title :
    (∀ e1 e2 : Event, eventEq e1 e2 = true ↔ e1.datetime = e2.datetime) ∧
    (∀ e1 e2 : Event, eventLt e1 e2 = true ↔ e1.datetime < e2.datetime) ∧
    (∀ (t1 t2 : String) (X : Nat), eventEq ⟨t1, X⟩ ⟨t2, X⟩ = true) ∧
    (∀ l : List Event, (pySortEvents l).Perm l) ∧
    (∀ l : List Event,
      List.Sorted (fun a b : Event => a.datetime ≤ b.datetime) (pySortEvents l)) ∧
    (∀ (l : List Event) (d : Nat),
      (pySortEvents l).filter (fun e => e.datetime == d) =
        l.filter (fun e => e.datetime == d)) := by
  refine ⟨?_, ?_, ?_, ?_, ?_, ?_⟩
  · intro e1 e2
    simp [eventEq]
  · intro e1 e2
    simp [eventLt]
  · intro t1 t2 X
    simp [eventEq]
  · intro l
    exact List.perm_insertionSort eventLe l
  · intro l
    exact (List.sorted_insertionSort eventLe l).imp (fun h => (eventLe_iff _ _).mp h)
  · intro l d
    exact pySortEvents_filter_key d l

/-- C10 witness: a candle-lighting and a havdalah event at the same
timestamp compare equal. -/
theorem event_order_ignores_title_witness :
    eventEq ⟨"Candle Lighting", 9⟩ ⟨"Shabbat Ends", 9⟩ = true :=
  event_order_ignores_title.2.2.1 "Candle Lighting" "Shabbat Ends" 9
